import Mathlib

/-!
Shallow embedding of the stream-reading layer of mupdf
(`source/fitz/stream-read.c`).

A stream is modelled as a buffered window over a pull source:
`window` holds the bytes already fetched from the source but not yet
consumed (the range between the read pointer `rp` and the write pointer
`wp`), `chunks` lists the byte blocks that successive fill calls will
deliver, `fin` says how the source ends (genuine end of data, or a
raised error), `pos` is the absolute source offset of the byte at the
write pointer, and `avail` is the bit accumulator used by bit-level
reads (reset by any reposition).

Fallible C functions (which throw fitz exceptions) are modelled with
`Except FzError`.  Machine integers are modelled as `Nat`/`Int` with
explicit reductions modulo `2 ^ 32` / `2 ^ 64` where C unsigned
arithmetic can overflow.
-/

inductive FzErrorCode where
  | memory
  | generic
  | trylater
deriving DecidableEq

structure FzError where
  code : FzErrorCode
  msg : String
deriving DecidableEq

/-- The end-of-stream sentinel returned by the single-byte read (C `EOF`). -/
def EOF : Int := -1

/-- How the pull source behaves once all of its data blocks are exhausted:
either a genuine end of data, or an error raised by the fill call. -/
inductive SourceEnd where
  | eof
  | err (e : FzError)
deriving DecidableEq

structure FzStream where
  window : List Nat
  chunks : List (List Nat)
  fin : SourceEnd
  pos : Nat
  avail : Nat
deriving DecidableEq

/-- Fill contract (spec 4.1): a fill call extends the window and returns 0
only at genuine end of source, so every pending data block is nonempty. -/
def FzStream.wf (s : FzStream) : Prop := ∀ c ∈ s.chunks, c ≠ []

instance (s : FzStream) : Decidable s.wf := by
  unfold FzStream.wf
  infer_instance

/-- All bytes the stream can still deliver: the buffered window followed by
every block the source has yet to deliver. -/
def content (s : FzStream) : List Nat := s.window ++ s.chunks.flatten

/-- Number of bytes the stream can still deliver. -/
def totalRemaining (s : FzStream) : Nat := (content s).length

/-- C `fz_tell`: the current logical reading position,
`stm->pos - (stm->wp - stm->rp)`. -/
def fz_tell (s : FzStream) : Int := (s.pos : Int) - (s.window.length : Int)

/-- Modelled from the spec: `fz_available` (declared in the fitz headers,
not part of `stream-read.c`) reports how many bytes sit in the window,
filling the window from the pull source when it is empty.  Per spec 4.1
and 6, `fill(minBytes) -> bytesAvailable` extends the window, returns 0
only at genuine end of source, and a raised error (in particular
retry-later) propagates to the caller. -/
def fz_available (s : FzStream) : Except FzError (Nat × FzStream) :=
  if s.window.length ≠ 0 then .ok (s.window.length, s)
  else
    match s.chunks with
    | c :: rest => .ok (c.length, FzStream.mk c rest s.fin (s.pos + c.length) s.avail)
    | [] =>
      match s.fin with
      | .eof => .ok (0, s)
      | .err e => .error e

/-- Modelled from the spec: the single-byte read primitive (`fz_read_byte`,
declared in the fitz headers, not part of `stream-read.c`).  It returns
either a byte or the end-of-stream sentinel `EOF`, refilling the window
from the pull source when needed; a raised error propagates (spec 6, 7). -/
def fz_read_byte (s : FzStream) : Except FzError (Int × FzStream) :=
  match s.window with
  | b :: w => .ok ((b : Int), FzStream.mk w s.chunks s.fin s.pos s.avail)
  | [] =>
    match s.chunks with
    | c :: rest =>
      match c with
      | b :: w => .ok ((b : Int), FzStream.mk w rest s.fin (s.pos + c.length) s.avail)
      | [] => .ok (EOF, FzStream.mk [] rest s.fin s.pos s.avail)
    | [] =>
      match s.fin with
      | .eof => .ok (EOF, s)
      | .err e => .error e

/-- Modelled from the spec: the non-consuming one-byte peek
(`fz_peek_byte`, declared in the fitz headers, not part of
`stream-read.c`): read one byte, then push it back onto the window
unless it was the end-of-stream sentinel (spec 6). -/
def fz_peek_byte (s : FzStream) : Except FzError (Int × FzStream) :=
  match fz_read_byte s with
  | .error e => .error e
  | .ok (c, s') =>
    if c = EOF then .ok (EOF, s')
    else .ok (c, FzStream.mk (c.toNat :: s'.window) s'.chunks s'.fin s'.pos s'.avail)

/-- The loop body of C `fz_read`:
`do { n = fz_available(...); if (n > len) n = len; if (n == 0) break;
memcpy(...); stm->rp += n; ... len -= n; } while (len > 0);`.
The first argument is fuel bounding the number of iterations; every
iteration that continues the loop consumes at least one unit of `len`,
so `len + 1` units of fuel always suffice (see `fz_read`). -/
def fz_read_loop : Nat → FzStream → Nat → Except FzError (List Nat × FzStream)
  | 0, s, _ => .ok ([], s)
  | fuel + 1, s, len =>
    match fz_available s with
    | .error e => .error e
    | .ok (av, s1) =>
      let n := min av len
      if n = 0 then .ok ([], s1)
      else
        let taken := s1.window.take n
        let s2 := FzStream.mk (s1.window.drop n) s1.chunks s1.fin s1.pos s1.avail
        if len - n = 0 then .ok (taken, s2)
        else
          match fz_read_loop fuel s2 (len - n) with
          | .error e => .error e
          | .ok (bs, s3) => .ok (taken ++ bs, s3)

/-- C `fz_read`: read up to `len` bytes from the stream into a data block,
returning the bytes actually copied (a short result is not an error). -/
def fz_read (s : FzStream) (len : Nat) : Except FzError (List Nat × FzStream) :=
  fz_read_loop (len + 1) s len

/-- The growable buffer collaborator: `data` is the filled part
(`buf->len = data.length`) and `cap` the capacity (`buf->cap`). -/
structure FzBuffer where
  data : List Nat
  cap : Nat
deriving DecidableEq

/-- Modelled from the spec: the buffer constructor `fz_new_buffer`
(external collaborator, spec 6): create an empty buffer of the given
capacity. -/
def fz_new_buffer (cap : Nat) : FzBuffer := FzBuffer.mk [] cap

/-- Modelled from the spec: `fz_grow_buffer` (external collaborator,
spec 6): growing at least doubles the effective capacity; we model it as
exactly doubling. -/
def fz_grow_buffer (b : FzBuffer) : FzBuffer := FzBuffer.mk b.data (b.cap * 2)

/-- C `MIN_BOMB`, the absolute floor of the compression-bomb heuristic:
`100 << 20` (100 MiB). -/
def MIN_BOMB : Nat := 100 <<< 20

/-- The error thrown by the compression-bomb guard in `fz_read_best`. -/
def bombError : FzError := FzError.mk .generic "compression bomb detected"

/-- The `while (1)` loop inside the `fz_try` block of C `fz_read_best`:
grow the buffer when full, abort with `bombError` when the bomb check
fires, otherwise pull more bytes into the buffer tail, stopping at a
0-byte read.  The result carries the buffer accumulated so far together
with the error caught by `fz_catch`, if any.  The first argument is fuel
bounding the number of iterations; every iteration that continues the
loop consumes at least one byte of the source, so `totalRemaining s + 1`
units of fuel always suffice (see `fz_read_best_run`). -/
def fz_read_best_loop :
    Nat → FzBuffer → FzStream → Nat → Bool → FzBuffer × FzStream × Option FzError
  | 0, buf, s, _, _ => (buf, s, none)
  | fuel + 1, buf, s, initial, chk =>
    let buf1 := if buf.data.length = buf.cap then fz_grow_buffer buf else buf
    if chk = true ∧ MIN_BOMB ≤ buf1.data.length ∧ initial < buf1.data.length / 200 then
      (buf1, s, some bombError)
    else
      match fz_read s (buf1.cap - buf1.data.length) with
      | .error e => (buf1, s, some e)
      | .ok (bs, s') =>
        if bs = [] then (buf1, s', none)
        else fz_read_best_loop fuel (FzBuffer.mk (buf1.data ++ bs) buf1.cap) s' initial chk

/-- The `fz_try` block of C `fz_read_best`: arm the bomb check iff the
caller's hint is strictly positive, clamp the hint to at least 1024,
allocate `initial + 1` bytes, and run the slurp loop. -/
def fz_read_best_run (s : FzStream) (initial : Nat) : FzBuffer × FzStream × Option FzError :=
  let chk : Bool := decide (0 < initial)
  let init2 := if initial < 1024 then 1024 else initial
  fz_read_best_loop (totalRemaining s + 1) (fz_new_buffer (init2 + 1)) s init2 chk

/-- C `fz_read_best`: slurp the whole stream into one buffer.  `tolerant`
models a non-NULL `truncated` out-parameter; the returned flag is the
value stored in `*truncated`.  The `fz_catch` block re-raises
`FZ_ERROR_TRYLATER` unconditionally; any other caught error is swallowed
with `*truncated = 1` in tolerant mode and re-raised (after dropping the
partial buffer) otherwise. -/
def fz_read_best (s : FzStream) (initial : Nat) (tolerant : Bool) :
    Except FzError (FzBuffer × Bool) :=
  match fz_read_best_run s initial with
  | (buf, _, none) => .ok (buf, false)
  | (buf, _, some e) =>
    if e.code = FzErrorCode.trylater then .error e
    else if tolerant then .ok (buf, true)
    else .error e

/-- C `fz_read_all`: `fz_read_best(ctx, stm, initial, NULL)`. -/
def fz_read_all (s : FzStream) (initial : Nat) : Except FzError (FzBuffer × Bool) :=
  fz_read_best s initial false

/-- C `fz_read_file`: open a file and slurp it with
`fz_read_all(ctx, stm, 0)`.  The file-opening collaborator
(`fz_open_file`) is external (spec 6), so the function is modelled on
the already-opened file stream. -/
def fz_read_file (s : FzStream) : Except FzError (FzBuffer × Bool) :=
  fz_read_all s 0

/-- The `while (n > 1)` loop of C `fz_read_line`, threading the byte
variable `c` (` int c = EOF; ` before the loop).  A `\r` peeks the next
byte and consumes it only when it is `\n`; `\r` and `\n` terminate the
line; ordinary bytes are appended to the output and decrement `n`. -/
def fz_read_line_loop : Nat → Int → FzStream → List Nat → Except FzError (List Nat × Int × FzStream)
  | 0, c, s, acc => .ok (acc, c, s)
  | 1, c, s, acc => .ok (acc, c, s)
  | n + 2, _, s, acc =>
    match fz_read_byte s with
    | .error e => .error e
    | .ok (c1, s1) =>
      if c1 = EOF then .ok (acc, c1, s1)
      else if c1 = 13 then
        match fz_peek_byte s1 with
        | .error e => .error e
        | .ok (c2, s2) =>
          if c2 = 10 then
            match fz_read_byte s2 with
            | .error e => .error e
            | .ok (_, s3) => .ok (acc, c2, s3)
          else .ok (acc, c2, s2)
      else if c1 = 10 then .ok (acc, c1, s1)
      else fz_read_line_loop (n + 1) c1 s1 (acc ++ [c1.toNat])

/-- C `fz_read_line`: read one line of at most `n - 1` bytes.  The result
is `none` (C `NULL`) exactly when `s == mem && c == EOF` at the end of
the loop, i.e. when no byte was stored and the last value of `c` is the
end-of-stream sentinel. -/
def fz_read_line (s : FzStream) (n : Nat) : Except FzError (Option (List Nat) × FzStream) :=
  match fz_read_line_loop n EOF s [] with
  | .error e => .error e
  | .ok (acc, c, s') => .ok (if acc = [] ∧ c = EOF then none else some acc, s')

/-- The `while (offset-- > 0)` emulation loop of C `fz_seek` for streams
without a native seek capability: consume one byte at a time, warning
and stopping early when the end of the stream is hit. -/
def fz_seek_loop : Nat → FzStream → Except FzError (FzStream × List String)
  | 0, s => .ok (s, [])
  | k + 1, s =>
    match fz_read_byte s with
    | .error e => .error e
    | .ok (c, s1) =>
      if c = EOF then .ok (s1, ["seek failed"])
      else
        match fz_seek_loop k s1 with
        | .error e => .error e
        | .ok (s2, w) => .ok (s2, w)

/-- C `fz_seek` for a stream lacking the native seek capability
(`stm->seek == NULL`), which is the case the claims address: reset the
bit accumulator, translate an absolute request into a relative one, warn
and no-op on a backward request, emulate a forward request byte by byte,
and warn on a from-end request.  The returned list collects the
non-fatal `fz_warn` messages. -/
def fz_seek (s : FzStream) (offset : Int) (whence : Nat) :
    Except FzError (FzStream × List String) :=
  let s0 := FzStream.mk s.window s.chunks s.fin s.pos 0
  if whence ≠ 2 then
    let off := if whence = 0 then offset - fz_tell s0 else offset
    let w0 : List String := if off < 0 then ["cannot seek backwards"] else []
    match fz_seek_loop off.toNat s0 with
    | .error e => .error e
    | .ok (s1, w1) => .ok (s1, w0 ++ w1)
  else .ok (s0, ["cannot seek"])

/-- Conversion of a C `int` value to `uint32_t`, as happens when the
result of `fz_read_byte` is stored in a `uint32_t` variable
(`EOF = -1` becomes `4294967295`). -/
def u32 (i : Int) : Nat := (i % (2 ^ 32 : Int)).toNat

/-- Conversion of a C `int` value to `uint64_t`. -/
def u64 (i : Int) : Nat := (i % (2 ^ 64 : Int)).toNat

/-- C `fz_read_uint16`: two single-byte reads, big-endian assembly
`(a<<8) | b` in `uint32_t` arithmetic, an EOF check on each fetched
byte, and truncation of the result to `uint16_t`. -/
def fz_read_uint16 (s : FzStream) : Except FzError (Nat × FzStream) :=
  match fz_read_byte s with
  | .error e => .error e
  | .ok (ra, s1) =>
    match fz_read_byte s1 with
    | .error e => .error e
    | .ok (rb, s2) =>
      let a := u32 ra
      let b := u32 rb
      let x := ((a <<< 8) % 2 ^ 32) ||| b
      if a = u32 EOF ∨ b = u32 EOF then
        .error (FzError.mk .generic "premature end of file in int16")
      else .ok (x % 2 ^ 16, s2)

/-- C `fz_read_uint24`: three single-byte reads and big-endian assembly
`(a<<16) | (b<<8) | c` in `uint32_t` arithmetic. -/
def fz_read_uint24 (s : FzStream) : Except FzError (Nat × FzStream) :=
  match fz_read_byte s with
  | .error e => .error e
  | .ok (ra, s1) =>
    match fz_read_byte s1 with
    | .error e => .error e
    | .ok (rb, s2) =>
      match fz_read_byte s2 with
      | .error e => .error e
      | .ok (rc, s3) =>
        let a := u32 ra
        let b := u32 rb
        let c := u32 rc
        let x := (((a <<< 16) % 2 ^ 32) ||| ((b <<< 8) % 2 ^ 32)) ||| c
        if a = u32 EOF ∨ b = u32 EOF ∨ c = u32 EOF then
          .error (FzError.mk .generic "premature end of file in int24")
        else .ok (x, s3)

/-- C `fz_read_uint32`: four single-byte reads and big-endian assembly
`(a<<24) | (b<<16) | (c<<8) | d` in `uint32_t` arithmetic. -/
def fz_read_uint32 (s : FzStream) : Except FzError (Nat × FzStream) :=
  match fz_read_byte s with
  | .error e => .error e
  | .ok (ra, s1) =>
    match fz_read_byte s1 with
    | .error e => .error e
    | .ok (rb, s2) =>
      match fz_read_byte s2 with
      | .error e => .error e
      | .ok (rc, s3) =>
        match fz_read_byte s3 with
        | .error e => .error e
        | .ok (rd, s4) =>
          let a := u32 ra
          let b := u32 rb
          let c := u32 rc
          let d := u32 rd
          let x := ((((a <<< 24) % 2 ^ 32) ||| ((b <<< 16) % 2 ^ 32)) |||
            ((c <<< 8) % 2 ^ 32)) ||| d
          if a = u32 EOF ∨ b = u32 EOF ∨ c = u32 EOF ∨ d = u32 EOF then
            .error (FzError.mk .generic "premature end of file in int32")
          else .ok (x, s4)

/-- C `fz_read_uint64`: eight single-byte reads and big-endian assembly
in `uint64_t` arithmetic. -/
def fz_read_uint64 (s : FzStream) : Except FzError (Nat × FzStream) :=
  match fz_read_byte s with
  | .error e => .error e
  | .ok (ra, s1) =>
    match fz_read_byte s1 with
    | .error e => .error e
    | .ok (rb, s2) =>
      match fz_read_byte s2 with
      | .error e => .error e
      | .ok (rc, s3) =>
        match fz_read_byte s3 with
        | .error e => .error e
        | .ok (rd, s4) =>
          match fz_read_byte s4 with
          | .error e => .error e
          | .ok (re, s5) =>
            match fz_read_byte s5 with
            | .error e => .error e
            | .ok (rf, s6) =>
              match fz_read_byte s6 with
              | .error e => .error e
              | .ok (rg, s7) =>
                match fz_read_byte s7 with
                | .error e => .error e
                | .ok (rh, s8) =>
                  let a := u64 ra
                  let b := u64 rb
                  let c := u64 rc
                  let d := u64 rd
                  let e2 := u64 re
                  let f := u64 rf
                  let g := u64 rg
                  let h := u64 rh
                  let x := ((((((((a <<< 56) % 2 ^ 64) ||| ((b <<< 48) % 2 ^ 64)) |||
                    ((c <<< 40) % 2 ^ 64)) ||| ((d <<< 32) % 2 ^ 64)) |||
                    ((e2 <<< 24) % 2 ^ 64)) ||| ((f <<< 16) % 2 ^ 64)) |||
                    ((g <<< 8) % 2 ^ 64)) ||| h
                  if a = u64 EOF ∨ b = u64 EOF ∨ c = u64 EOF ∨ d = u64 EOF ∨
                      e2 = u64 EOF ∨ f = u64 EOF ∨ g = u64 EOF ∨ h = u64 EOF then
                    .error (FzError.mk .generic "premature end of file in int64")
                  else .ok (x, s8)

/-- C `fz_read_uint16_le`: little-endian assembly `(a) | (b<<8)`. -/
def fz_read_uint16_le (s : FzStream) : Except FzError (Nat × FzStream) :=
  match fz_read_byte s with
  | .error e => .error e
  | .ok (ra, s1) =>
    match fz_read_byte s1 with
    | .error e => .error e
    | .ok (rb, s2) =>
      let a := u32 ra
      let b := u32 rb
      let x := a ||| ((b <<< 8) % 2 ^ 32)
      if a = u32 EOF ∨ b = u32 EOF then
        .error (FzError.mk .generic "premature end of file in int16")
      else .ok (x % 2 ^ 16, s2)

/-- C `fz_read_uint24_le`: little-endian assembly `(a) | (b<<8) | (c<<16)`. -/
def fz_read_uint24_le (s : FzStream) : Except FzError (Nat × FzStream) :=
  match fz_read_byte s with
  | .error e => .error e
  | .ok (ra, s1) =>
    match fz_read_byte s1 with
    | .error e => .error e
    | .ok (rb, s2) =>
      match fz_read_byte s2 with
      | .error e => .error e
      | .ok (rc, s3) =>
        let a := u32 ra
        let b := u32 rb
        let c := u32 rc
        let x := (a ||| ((b <<< 8) % 2 ^ 32)) ||| ((c <<< 16) % 2 ^ 32)
        if a = u32 EOF ∨ b = u32 EOF ∨ c = u32 EOF then
          .error (FzError.mk .generic "premature end of file in int24")
        else .ok (x, s3)

/-- C `fz_read_uint32_le`: little-endian assembly
`(a) | (b<<8) | (c<<16) | (d<<24)`. -/
def fz_read_uint32_le (s : FzStream) : Except FzError (Nat × FzStream) :=
  match fz_read_byte s with
  | .error e => .error e
  | .ok (ra, s1) =>
    match fz_read_byte s1 with
    | .error e => .error e
    | .ok (rb, s2) =>
      match fz_read_byte s2 with
      | .error e => .error e
      | .ok (rc, s3) =>
        match fz_read_byte s3 with
        | .error e => .error e
        | .ok (rd, s4) =>
          let a := u32 ra
          let b := u32 rb
          let c := u32 rc
          let d := u32 rd
          let x := ((a ||| ((b <<< 8) % 2 ^ 32)) ||| ((c <<< 16) % 2 ^ 32)) |||
            ((d <<< 24) % 2 ^ 32)
          if a = u32 EOF ∨ b = u32 EOF ∨ c = u32 EOF ∨ d = u32 EOF then
            .error (FzError.mk .generic "premature end of file in int32")
          else .ok (x, s4)

/-- C `fz_read_uint64_le`: little-endian assembly in `uint64_t`
arithmetic. -/
def fz_read_uint64_le (s : FzStream) : Except FzError (Nat × FzStream) :=
  match fz_read_byte s with
  | .error e => .error e
  | .ok (ra, s1) =>
    match fz_read_byte s1 with
    | .error e => .error e
    | .ok (rb, s2) =>
      match fz_read_byte s2 with
      | .error e => .error e
      | .ok (rc, s3) =>
        match fz_read_byte s3 with
        | .error e => .error e
        | .ok (rd, s4) =>
          match fz_read_byte s4 with
          | .error e => .error e
          | .ok (re, s5) =>
            match fz_read_byte s5 with
            | .error e => .error e
            | .ok (rf, s6) =>
              match fz_read_byte s6 with
              | .error e => .error e
              | .ok (rg, s7) =>
                match fz_read_byte s7 with
                | .error e => .error e
                | .ok (rh, s8) =>
                  let a := u64 ra
                  let b := u64 rb
                  let c := u64 rc
                  let d := u64 rd
                  let e2 := u64 re
                  let f := u64 rf
                  let g := u64 rg
                  let h := u64 rh
                  let x := (((((((a ||| ((b <<< 8) % 2 ^ 64)) |||
                    ((c <<< 16) % 2 ^ 64)) ||| ((d <<< 24) % 2 ^ 64)) |||
                    ((e2 <<< 32) % 2 ^ 64)) ||| ((f <<< 40) % 2 ^ 64)) |||
                    ((g <<< 48) % 2 ^ 64)) ||| ((h <<< 56) % 2 ^ 64))
                  if a = u64 EOF ∨ b = u64 EOF ∨ c = u64 EOF ∨ d = u64 EOF ∨
                      e2 = u64 EOF ∨ f = u64 EOF ∨ g = u64 EOF ∨ h = u64 EOF then
                    .error (FzError.mk .generic "premature end of file in int64")
                  else .ok (x, s8)

/-- Value of the first still-deliverable byte as seen by `fz_read_byte`:
the head of the remaining content, or the sentinel at the end. -/
def headByte (l : List Nat) : Int :=
  match l with
  | [] => EOF
  | b :: _ => (b : Int)

/-- A concrete stream delivering exactly `MIN_BOMB` (100 MiB) zero bytes in
one block and then ending normally, used to exercise the bomb guard. -/
def hugeStream : FzStream :=
  FzStream.mk [] [List.replicate MIN_BOMB 0] SourceEnd.eof MIN_BOMB 0

/-! ### Helper lemmas about the byte-level primitives -/

theorem MIN_BOMB_eq : MIN_BOMB = 104857600 := by
  unfold MIN_BOMB
  rw [Nat.shiftLeft_eq]

theorem content_mk (w : List Nat) (cs : List (List Nat)) (fin : SourceEnd) (pos av : Nat) :
    content (FzStream.mk w cs fin pos av) = w ++ cs.flatten := rfl

theorem wf_mk (w : List Nat) (cs : List (List Nat)) (fin : SourceEnd) (pos av : Nat) :
    (FzStream.mk w cs fin pos av).wf ↔ ∀ c ∈ cs, c ≠ [] := Iff.rfl

theorem chunks_eq_nil_of_wf_content_nil (s : FzStream) (hwf : s.wf) (h : content s = []) :
    s.window = [] ∧ s.chunks = [] := by
  rcases s with ⟨w, cs, fin, pos, av⟩
  simp only [content_mk, List.append_eq_nil] at h
  refine ⟨h.1, ?_⟩
  rcases cs with _ | ⟨c, rest⟩
  · rfl
  · exfalso
    have hc : c ≠ [] := hwf c (by simp)
    have : c = [] := by
      have := h.2
      simp only [List.flatten, List.append_eq_nil] at this
      exact this.1
    exact hc this

theorem rb_cons (s : FzStream) (b : Nat) (t : List Nat) (hwf : s.wf)
    (h : content s = b :: t) :
    ∃ s', fz_read_byte s = .ok ((b : Int), s') ∧ content s' = t ∧ s'.wf ∧
      s'.fin = s.fin ∧ fz_tell s' = fz_tell s + 1 := by
  rcases s with ⟨w, cs, fin, pos, av⟩
  rcases w with _ | ⟨b0, w'⟩
  · rcases cs with _ | ⟨c, rest⟩
    · simp [content_mk] at h
    · have hc : c ≠ [] := hwf c (by simp)
      rcases c with _ | ⟨b1, w1⟩
      · exact absurd rfl hc
      · simp only [content_mk, List.flatten_cons, List.nil_append, List.cons_append,
          List.cons.injEq] at h
        refine ⟨FzStream.mk w1 rest fin (pos + (b1 :: w1).length) av, ?_, ?_, ?_, ?_, ?_⟩
        · simp [fz_read_byte, h.1]
        · simpa [content_mk] using h.2
        · intro c hcm
          exact hwf c (by simp [hcm])
        · rfl
        · simp only [fz_tell, List.length_cons, List.length_nil]
          push_cast
          ring
  · simp only [content_mk, List.cons_append, List.cons.injEq] at h
    refine ⟨FzStream.mk w' cs fin pos av, ?_, ?_, hwf, rfl, ?_⟩
    · simp [fz_read_byte, h.1]
    · simpa [content_mk] using h.2
    · simp only [fz_tell, List.length_cons]
      push_cast
      ring

theorem rb_nil (s : FzStream) (hwf : s.wf) (h : content s = []) (hfin : s.fin = .eof) :
    fz_read_byte s = .ok (EOF, s) := by
  obtain ⟨hw, hc⟩ := chunks_eq_nil_of_wf_content_nil s hwf h
  rcases s with ⟨w, cs, fin, pos, av⟩
  simp only at hw hc
  subst hw hc
  simp only at hfin
  subst hfin
  rfl

theorem rb_err (s : FzStream) (e : FzError) (hwf : s.wf) (h : content s = [])
    (hfin : s.fin = .err e) : fz_read_byte s = .error e := by
  obtain ⟨hw, hc⟩ := chunks_eq_nil_of_wf_content_nil s hwf h
  rcases s with ⟨w, cs, fin, pos, av⟩
  simp only at hw hc
  subst hw hc
  simp only at hfin
  subst hfin
  rfl

theorem rb_eof_spec (s : FzStream) (hwf : s.wf) (hfin : s.fin = .eof) :
    ∃ s', fz_read_byte s = .ok (headByte (content s), s') ∧
      content s' = (content s).drop 1 ∧ s'.wf ∧ s'.fin = .eof := by
  rcases hcon : content s with _ | ⟨b, t⟩
  · exact ⟨s, by simpa [headByte] using rb_nil s hwf hcon hfin,
      by simp [hcon], hwf, hfin⟩
  · obtain ⟨s', h1, h2, h3, h4, _⟩ := rb_cons s b t hwf hcon
    exact ⟨s', by simpa [headByte] using h1, by simp [h2], h3, by rw [h4, hfin]⟩

theorem peek_cons (s : FzStream) (b : Nat) (t : List Nat) (hwf : s.wf)
    (h : content s = b :: t) :
    ∃ s', fz_peek_byte s = .ok ((b : Int), s') ∧ content s' = b :: t ∧ s'.wf ∧
      s'.fin = s.fin ∧ fz_tell s' = fz_tell s := by
  obtain ⟨s1, h1, h2, h3, h4, h5⟩ := rb_cons s b t hwf h
  have hne : ((b : Int) = EOF) = False := by
    simp only [EOF, eq_iff_iff, iff_false]
    omega
  refine ⟨FzStream.mk ((b : Int).toNat :: s1.window) s1.chunks s1.fin s1.pos s1.avail,
    ?_, ?_, h3, h4, ?_⟩
  · simp [fz_peek_byte, h1, hne]
  · have : ((b : Int).toNat) = b := by omega
    rw [content_mk, this]
    have : content s1 = s1.window ++ s1.chunks.flatten := rfl
    rw [this] at h2
    simp [h2]
  · simp only [fz_tell, List.length_cons] at h5 ⊢
    push_cast at h5 ⊢
    omega

theorem peek_nil (s : FzStream) (hwf : s.wf) (h : content s = []) (hfin : s.fin = .eof) :
    fz_peek_byte s = .ok (EOF, s) := by
  simp [fz_peek_byte, rb_nil s hwf h hfin]

theorem avail_spec (s : FzStream) (hwf : s.wf) (hfin : s.fin = .eof) :
    ∃ av s1, fz_available s = .ok (av, s1) ∧ content s1 = content s ∧ s1.wf ∧
      s1.fin = .eof ∧ fz_tell s1 = fz_tell s ∧ av = s1.window.length ∧
      (av = 0 ↔ content s = []) := by
  rcases s with ⟨w, cs, fin, pos, av0⟩
  rcases w with _ | ⟨b, w'⟩
  · rcases cs with _ | ⟨c, rest⟩
    · simp only at hfin
      subst hfin
      exact ⟨0, _, rfl, rfl, hwf, rfl, rfl, rfl, by simp [content_mk]⟩
    · have hc : c ≠ [] := hwf c (by simp)
      refine ⟨c.length, FzStream.mk c rest fin (pos + c.length) av0, ?_, ?_, ?_, ?_, ?_, rfl, ?_⟩
      · rfl
      · simp [content_mk]
      · intro x hx
        exact hwf x (by simp [hx])
      · simpa using hfin
      · simp [fz_tell]
      · constructor
        · intro h
          exact absurd (List.length_eq_zero.mp h) hc
        · intro h
          simp only [content_mk, List.nil_append, List.flatten_cons] at h
          rcases List.append_eq_nil.mp h with ⟨h1, _⟩
          exact absurd h1 hc
  · refine ⟨(b :: w').length, _, ?_, rfl, hwf, hfin, rfl, rfl, ?_⟩
    · simp [fz_available]
    · simp [content_mk]

theorem read_loop_eof : ∀ fuel (s : FzStream) (len : Nat), s.wf → s.fin = .eof → len < fuel →
    ∃ s', fz_read_loop fuel s len = .ok ((content s).take len, s') ∧
      content s' = (content s).drop len ∧ s'.wf ∧ s'.fin = .eof ∧
      fz_tell s' = fz_tell s + min len (totalRemaining s) := by
  intro fuel
  induction fuel with
  | zero =>
    intro s len _ _ h
    omega
  | succ fuel ih =>
    intro s len hwf hfin hlen
    obtain ⟨av, s1, hav, hc1, hwf1, hfin1, ht1, hwl, hav0⟩ := avail_spec s hwf hfin
    simp only [fz_read_loop]
    rw [hav]
    simp only
    by_cases h0 : min av len = 0
    · rw [if_pos h0]
      rcases Nat.min_eq_zero_iff.mp h0 with h | h
      · have hnil : content s = [] := hav0.mp h
        refine ⟨s1, by simp [hnil], ?_, hwf1, hfin1, ?_⟩
        · simp [hc1, hnil]
        · have : totalRemaining s = 0 := by simp [totalRemaining, hnil]
          simp [this, ht1]
      · subst h
        refine ⟨s1, by simp, by simpa using hc1, hwf1, hfin1, by simp [ht1]⟩
    · rw [if_neg h0]
      have hn1 : 1 ≤ min av len := Nat.one_le_iff_ne_zero.mpr h0
      have hnav : min av len ≤ av := Nat.min_le_left _ _
      have hnlen : min av len ≤ len := Nat.min_le_right _ _
      have hwlen : min av len ≤ s1.window.length := by omega
      have htk : s1.window.take (min av len) = (content s).take (min av len) := by
        rw [← hc1]
        unfold content
        rw [List.take_append_of_le_length hwlen]
      have hdrop : content (FzStream.mk (s1.window.drop (min av len)) s1.chunks s1.fin
          s1.pos s1.avail) = (content s).drop (min av len) := by
        rw [← hc1]
        unfold content
        simp only
        rw [List.drop_append_of_le_length hwlen]
      have hwf2 : (FzStream.mk (s1.window.drop (min av len)) s1.chunks s1.fin
          s1.pos s1.avail).wf := hwf1
      have hfin2 : (FzStream.mk (s1.window.drop (min av len)) s1.chunks s1.fin
          s1.pos s1.avail).fin = .eof := hfin1
      have htell2 : fz_tell (FzStream.mk (s1.window.drop (min av len)) s1.chunks s1.fin
          s1.pos s1.avail) = fz_tell s + min av len := by
        simp only [fz_tell, List.length_drop]
        simp only [fz_tell] at ht1
        omega
      have htot : totalRemaining s = s1.window.length + s1.chunks.flatten.length := by
        rw [totalRemaining, ← hc1]
        simp [content]
      by_cases hstop : len - min av len = 0
      · rw [if_pos hstop]
        have hmin : min av len = len := by omega
        refine ⟨_, ?_, ?_, hwf2, hfin2, ?_⟩
        · rw [htk, hmin]
        · rw [hdrop, hmin]
        · rw [htell2, hmin]
          have : min len (totalRemaining s) = len := by
            rw [htot]
            omega
          rw [this]
      · rw [if_neg hstop]
        have hmav : min av len = av := by omega
        obtain ⟨s3, hrec, hc3, hwf3, hfin3, ht3⟩ :=
          ih (FzStream.mk (s1.window.drop (min av len)) s1.chunks s1.fin s1.pos s1.avail)
            (len - min av len) hwf2 hfin2 (by omega)
        rw [hrec]
        refine ⟨s3, ?_, ?_, hwf3, hfin3, ?_⟩
        · dsimp only
          rw [htk, hdrop, ← List.take_add]
          have harith : min av len + (len - min av len) = len := by omega
          rw [harith]
        · rw [hc3, hdrop, List.drop_drop]
          have harith : min av len + (len - min av len) = len := by omega
          rw [harith]
        · rw [ht3, htell2]
          have htot2 : totalRemaining (FzStream.mk (s1.window.drop (min av len)) s1.chunks
              s1.fin s1.pos s1.avail) = totalRemaining s - min av len := by
            rw [totalRemaining, hdrop, List.length_drop, totalRemaining]
          rw [htot2]
          have hm2 : min av len ≤ totalRemaining s := by
            rw [htot]
            omega
          have : min len (totalRemaining s) =
              min av len + min (len - min av len) (totalRemaining s - min av len) := by
            omega
          rw [this]
          push_cast
          ring

theorem fz_read_eof (s : FzStream) (len : Nat) (hwf : s.wf) (hfin : s.fin = .eof) :
    ∃ s', fz_read s len = .ok ((content s).take len, s') ∧
      content s' = (content s).drop len ∧ s'.wf ∧ s'.fin = .eof ∧
      fz_tell s' = fz_tell s + min len (totalRemaining s) :=
  read_loop_eof (len + 1) s len hwf hfin (Nat.lt_succ_self len)

theorem bomb_cond_mono (i L M : Nat) (h : L ≤ M) (hc : MIN_BOMB ≤ L ∧ i < L / 200) :
    MIN_BOMB ≤ M ∧ i < M / 200 :=
  ⟨le_trans hc.1 h, lt_of_lt_of_le hc.2 (Nat.div_le_div_right h)⟩

theorem bestloop_ok : ∀ fuel (buf : FzBuffer) (s : FzStream) (initial : Nat) (chk : Bool),
    s.wf → s.fin = .eof → totalRemaining s < fuel → buf.data.length ≤ buf.cap →
    0 < buf.cap →
    ¬ (chk = true ∧ MIN_BOMB ≤ buf.data.length + totalRemaining s ∧
      initial < (buf.data.length + totalRemaining s) / 200) →
    ∃ c2 s', fz_read_best_loop fuel buf s initial chk =
      (FzBuffer.mk (buf.data ++ content s) c2, s', none) := by
  intro fuel
  induction fuel with
  | zero =>
    intro buf s initial chk _ _ h _ _ _
    omega
  | succ fuel ih =>
    intro buf s initial chk hwf hfin hfuel hlc hcpos hnb
    obtain ⟨cap1, hif, hlt1⟩ :
        ∃ cap1, (if buf.data.length = buf.cap then fz_grow_buffer buf else buf) =
          FzBuffer.mk buf.data cap1 ∧ buf.data.length < cap1 := by
      by_cases hfull : buf.data.length = buf.cap
      · exact ⟨buf.cap * 2, by simp [hfull, fz_grow_buffer], by omega⟩
      · exact ⟨buf.cap, by simp [hfull], by omega⟩
    simp only [fz_read_best_loop]
    rw [hif]
    have hnb1 : ¬ (chk = true ∧ MIN_BOMB ≤ (FzBuffer.mk buf.data cap1).data.length ∧
        initial < (FzBuffer.mk buf.data cap1).data.length / 200) := by
      intro ⟨h1, h2, h3⟩
      exact hnb ⟨h1, bomb_cond_mono initial buf.data.length
        (buf.data.length + totalRemaining s) (by omega) ⟨h2, h3⟩⟩
    rw [if_neg hnb1]
    obtain ⟨s', hread, hc', hwf', hfin', _⟩ :=
      fz_read_eof s (cap1 - buf.data.length) hwf hfin
    rw [hread]
    dsimp only
    by_cases hT : totalRemaining s = 0
    · have hnil : content s = [] := List.length_eq_zero.mp hT
      have hbs : (content s).take (cap1 - buf.data.length) = [] := by simp [hnil]
      rw [if_pos hbs]
      exact ⟨cap1, s', by simp [hnil]⟩
    · have hk : 1 ≤ cap1 - buf.data.length := by omega
      have hbs : (content s).take (cap1 - buf.data.length) ≠ [] := by
        intro h
        rcases List.take_eq_nil_iff.mp h with h | h
        · omega
        · exact hT (by simp [totalRemaining, h])
      rw [if_neg hbs]
      have htot' : totalRemaining s' =
          totalRemaining s - (cap1 - buf.data.length) := by
        simp [totalRemaining, hc', List.length_drop]
      have hlen_bs : ((content s).take (cap1 - buf.data.length)).length =
          min (cap1 - buf.data.length) (totalRemaining s) := by
        rw [List.length_take]
        rfl
      have hL2 : (FzBuffer.mk (buf.data ++ (content s).take (cap1 - buf.data.length))
          cap1).data.length =
          buf.data.length + min (cap1 - buf.data.length) (totalRemaining s) := by
        dsimp only
        rw [List.length_append, hlen_bs]
      have heq : buf.data.length + min (cap1 - buf.data.length) (totalRemaining s) +
          (totalRemaining s - (cap1 - buf.data.length)) =
          buf.data.length + totalRemaining s := by omega
      obtain ⟨c2, s'', hloop⟩ := ih
        (FzBuffer.mk (buf.data ++ (content s).take (cap1 - buf.data.length)) cap1)
        s' initial chk hwf' hfin' (by rw [htot']; omega)
        (by rw [hL2]; dsimp only; omega)
        (by dsimp only; omega)
        (by rw [hL2, htot', heq]; exact hnb)
      refine ⟨c2, s'', ?_⟩
      rw [hloop]
      simp [hc', List.append_assoc]

theorem bestloop_bomb : ∀ fuel (buf : FzBuffer) (s : FzStream) (initial : Nat),
    s.wf → s.fin = .eof → totalRemaining s < fuel → buf.data.length ≤ buf.cap →
    0 < buf.cap →
    MIN_BOMB ≤ buf.data.length + totalRemaining s →
    initial < (buf.data.length + totalRemaining s) / 200 →
    (fz_read_best_loop fuel buf s initial true).2.2 = some bombError := by
  intro fuel
  induction fuel with
  | zero =>
    intro buf s initial _ _ h _ _ _ _
    omega
  | succ fuel ih =>
    intro buf s initial hwf hfin hfuel hlc hcpos hb1 hb2
    obtain ⟨cap1, hif, hlt1⟩ :
        ∃ cap1, (if buf.data.length = buf.cap then fz_grow_buffer buf else buf) =
          FzBuffer.mk buf.data cap1 ∧ buf.data.length < cap1 := by
      by_cases hfull : buf.data.length = buf.cap
      · exact ⟨buf.cap * 2, by simp [hfull, fz_grow_buffer], by omega⟩
      · exact ⟨buf.cap, by simp [hfull], by omega⟩
    simp only [fz_read_best_loop]
    rw [hif]
    by_cases hnow : MIN_BOMB ≤ buf.data.length ∧ initial < buf.data.length / 200
    · rw [if_pos ⟨by trivial, by simpa using hnow.1, by simpa using hnow.2⟩]
    · rw [if_neg (by
        intro ⟨_, h2, h3⟩
        exact hnow ⟨by simpa using h2, by simpa using h3⟩)]
      obtain ⟨s', hread, hc', hwf', hfin', _⟩ :=
        fz_read_eof s (cap1 - buf.data.length) hwf hfin
      rw [hread]
      dsimp only
      have hT : totalRemaining s ≠ 0 := by
        intro h
        rw [h, Nat.add_zero] at hb1 hb2
        exact hnow ⟨hb1, hb2⟩
      have hk : 1 ≤ cap1 - buf.data.length := by omega
      have hbs : (content s).take (cap1 - buf.data.length) ≠ [] := by
        intro h
        rcases List.take_eq_nil_iff.mp h with h | h
        · omega
        · exact hT (by simp [totalRemaining, h])
      rw [if_neg hbs]
      have htot' : totalRemaining s' =
          totalRemaining s - (cap1 - buf.data.length) := by
        simp [totalRemaining, hc', List.length_drop]
      have hlen_bs : ((content s).take (cap1 - buf.data.length)).length =
          min (cap1 - buf.data.length) (totalRemaining s) := by
        rw [List.length_take]
        rfl
      have hL2 : (FzBuffer.mk (buf.data ++ (content s).take (cap1 - buf.data.length))
          cap1).data.length =
          buf.data.length + min (cap1 - buf.data.length) (totalRemaining s) := by
        dsimp only
        rw [List.length_append, hlen_bs]
      have heq : buf.data.length + min (cap1 - buf.data.length) (totalRemaining s) +
          (totalRemaining s - (cap1 - buf.data.length)) =
          buf.data.length + totalRemaining s := by omega
      exact ih (FzBuffer.mk (buf.data ++ (content s).take (cap1 - buf.data.length)) cap1)
        s' initial hwf' hfin' (by rw [htot']; omega)
        (by rw [hL2]; dsimp only; omega)
        (by dsimp only; omega)
        (by rw [hL2, htot', heq]; exact hb1)
        (by rw [hL2, htot', heq]; exact hb2)

theorem run_spec_ok (s : FzStream) (hint : Nat) (hwf : s.wf) (hfin : s.fin = .eof)
    (h : ¬ (0 < hint ∧ MIN_BOMB ≤ totalRemaining s ∧
      (if hint < 1024 then 1024 else hint) < totalRemaining s / 200)) :
    ∃ c2 s', fz_read_best_run s hint = (FzBuffer.mk (content s) c2, s', none) := by
  simp only [fz_read_best_run]
  obtain ⟨c2, s', hloop⟩ := bestloop_ok (totalRemaining s + 1)
    (fz_new_buffer ((if hint < 1024 then 1024 else hint) + 1)) s
    (if hint < 1024 then 1024 else hint) (decide (0 < hint)) hwf hfin
    (Nat.lt_succ_self _) (by simp [fz_new_buffer]) (by simp [fz_new_buffer])
    (by
      intro ⟨h1, h2, h3⟩
      simp only [fz_new_buffer, List.length_nil, Nat.zero_add] at h2 h3
      exact h ⟨of_decide_eq_true h1, h2, h3⟩)
  exact ⟨c2, s', by rw [hloop]; simp [fz_new_buffer]⟩

theorem run_spec_bomb (s : FzStream) (hint : Nat) (hwf : s.wf) (hfin : s.fin = .eof)
    (h1 : 0 < hint) (h2 : MIN_BOMB ≤ totalRemaining s)
    (h3 : (if hint < 1024 then 1024 else hint) < totalRemaining s / 200) :
    (fz_read_best_run s hint).2.2 = some bombError := by
  simp only [fz_read_best_run]
  rw [decide_eq_true h1]
  exact bestloop_bomb (totalRemaining s + 1)
    (fz_new_buffer ((if hint < 1024 then 1024 else hint) + 1)) s
    (if hint < 1024 then 1024 else hint) hwf hfin
    (Nat.lt_succ_self _) (by simp [fz_new_buffer]) (by simp [fz_new_buffer])
    (by simpa [fz_new_buffer] using h2) (by simpa [fz_new_buffer] using h3)

/-- **C1** (amended: the hint must be strictly positive, since a hint of 0
disarms the check entirely — see the counterexample).  For every
well-formed stream that ends normally and every positive size hint, the
non-tolerant slurp aborts with the bomb-detected error exactly when the
accumulated length — the stream's total size — has reached the absolute
floor `MIN_BOMB` (100 MiB) and that length divided by 200 exceeds the
original hint. -/
theorem fz_read_best_bomb_iff (s : FzStream) (hint : Nat) (hwf : s.wf)
    (hfin : s.fin = .eof) (hpos : 0 < hint) :
    fz_read_best s hint false = .error bombError ↔
      MIN_BOMB ≤ totalRemaining s ∧ hint < totalRemaining s / 200 := by
  have hiff : (MIN_BOMB ≤ totalRemaining s ∧ hint < totalRemaining s / 200) ↔
      (0 < hint ∧ MIN_BOMB ≤ totalRemaining s ∧
        (if hint < 1024 then 1024 else hint) < totalRemaining s / 200) := by
    have hdiv : MIN_BOMB ≤ totalRemaining s → (524288 : Nat) ≤ totalRemaining s / 200 := by
      intro h
      have h200 : MIN_BOMB / 200 ≤ totalRemaining s / 200 := Nat.div_le_div_right h
      have hmb : MIN_BOMB / 200 = 524288 := by norm_num [MIN_BOMB_eq]
      omega
    constructor
    · intro ⟨ha, hb⟩
      refine ⟨hpos, ha, ?_⟩
      by_cases hcase : hint < 1024
      · rw [if_pos hcase]
        have := hdiv ha
        omega
      · rw [if_neg hcase]
        exact hb
    · intro ⟨_, ha, hb⟩
      refine ⟨ha, ?_⟩
      by_cases hcase : hint < 1024
      · rw [if_pos hcase] at hb
        omega
      · rw [if_neg hcase] at hb
        exact hb
  rw [hiff]
  constructor
  · intro hL
    by_contra hr
    obtain ⟨c2, s', hrun⟩ := run_spec_ok s hint hwf hfin hr
    rw [fz_read_best, hrun] at hL
    exact absurd hL (by simp)
  · intro hr
    have h22 := run_spec_bomb s hint hwf hfin hr.1 hr.2.1 hr.2.2
    rcases hrun : fz_read_best_run s hint with ⟨buf', s'', eopt⟩
    rw [hrun] at h22
    simp only at h22
    subst h22
    rw [fz_read_best, hrun]
    simp [bombError]

theorem hugeStream_wf : hugeStream.wf := by
  intro c hc hnil
  simp only [hugeStream, List.mem_singleton] at hc
  rw [hc] at hnil
  have hlen := congrArg List.length hnil
  rw [List.length_replicate] at hlen
  simp only [List.length_nil] at hlen
  rw [MIN_BOMB_eq] at hlen
  exact absurd hlen (by norm_num)

theorem hugeStream_total : totalRemaining hugeStream = MIN_BOMB := by
  rw [totalRemaining]
  show ([] ++ ([List.replicate MIN_BOMB 0]).flatten).length = MIN_BOMB
  rw [List.nil_append, List.flatten_cons, List.flatten_nil, List.append_nil,
    List.length_replicate]

/-- **C1** witness: a 100 MiB stream slurped with hint 1024 instantiates
the bomb characterization. -/
theorem fz_read_best_bomb_iff_witness :
    hugeStream.wf ∧ hugeStream.fin = .eof ∧ 0 < 1024 ∧
      (fz_read_best hugeStream 1024 false = .error bombError ↔
        MIN_BOMB ≤ totalRemaining hugeStream ∧
          1024 < totalRemaining hugeStream / 200) :=
  ⟨hugeStream_wf, rfl, by norm_num,
    fz_read_best_bomb_iff hugeStream 1024 hugeStream_wf rfl (by norm_num)⟩

/-- **C1** counterexample to the claim as stated: with hint 0 the check is
disarmed, so a 100 MiB stream — for which the claimed condition
"length ≥ 100 MiB and length / 200 > hint" holds — is slurped without
any bomb-detected error. -/
theorem fz_read_best_hint_zero_no_bomb :
    (MIN_BOMB ≤ totalRemaining hugeStream ∧ 0 < totalRemaining hugeStream / 200) ∧
      (fz_read_best_run hugeStream 0).2.2 = none ∧
      fz_read_all hugeStream 0 ≠ .error bombError := by
  obtain ⟨c2, s', hrun⟩ := run_spec_ok hugeStream 0 hugeStream_wf rfl
    (by intro ⟨h, _⟩; exact absurd h (lt_irrefl 0))
  refine ⟨?_, ?_, ?_⟩
  · rw [hugeStream_total]
    norm_num [MIN_BOMB_eq]
  · rw [hrun]
  · rw [fz_read_all, fz_read_best, hrun]
    simp

/-- **C10**: a size hint of 0 — exactly what `fz_read_file` passes via
`fz_read_all(ctx, stm, 0)` — disarms the compression-bomb check (it is
armed only when the hint is strictly positive, before clamping): no
matter how many bytes the stream yields, the slurp succeeds with the
whole content and no bomb-detected error. -/
theorem fz_read_all_hint_zero_reads_all (s : FzStream) (hwf : s.wf)
    (hfin : s.fin = .eof) :
    (∃ c2, fz_read_all s 0 = .ok (FzBuffer.mk (content s) c2, false)) ∧
      fz_read_file s = fz_read_all s 0 := by
  refine ⟨?_, rfl⟩
  obtain ⟨c2, s', hrun⟩ := run_spec_ok s 0 hwf hfin
    (by intro ⟨h, _⟩; exact absurd h (lt_irrefl 0))
  exact ⟨c2, by rw [fz_read_all, fz_read_best, hrun]⟩

/-- **C10** witness: a concrete three-byte stream slurped through the
`fz_read_file` path. -/
theorem fz_read_all_hint_zero_reads_all_witness :
    (FzStream.mk [1, 2] [[3]] SourceEnd.eof 3 0).wf ∧
    (FzStream.mk [1, 2] [[3]] SourceEnd.eof 3 0).fin = .eof ∧
    ((∃ c2, fz_read_all (FzStream.mk [1, 2] [[3]] SourceEnd.eof 3 0) 0 =
        .ok (FzBuffer.mk (content (FzStream.mk [1, 2] [[3]] SourceEnd.eof 3 0)) c2, false)) ∧
      fz_read_file (FzStream.mk [1, 2] [[3]] SourceEnd.eof 3 0) =
        fz_read_all (FzStream.mk [1, 2] [[3]] SourceEnd.eof 3 0) 0) :=
  ⟨by decide, rfl, fz_read_all_hint_zero_reads_all _ (by decide) rfl⟩

/-- **C2**: whenever the slurp loop of `fz_read_best` ends with a
retry-later error, `fz_read_best` re-raises that error to the caller,
whether or not tolerant mode (a non-NULL truncated pointer) is
requested — it is never swallowed and never turned into a tolerated
truncation. -/
theorem fz_read_best_trylater_reraised (s : FzStream) (hint : Nat) (tolerant : Bool)
    (buf : FzBuffer) (s' : FzStream) (e : FzError)
    (hrun : fz_read_best_run s hint = (buf, s', some e)) (htl : e.code = .trylater) :
    fz_read_best s hint tolerant = .error e := by
  rw [fz_read_best, hrun]
  simp [htl]

/-- **C2** witness: a source that raises retry-later immediately; tolerant
mode still re-raises it. -/
theorem fz_read_best_trylater_reraised_witness :
    fz_read_best_run (FzStream.mk [] [] (SourceEnd.err (FzError.mk .trylater "later")) 0 0)
        1024 =
      (fz_new_buffer 1025,
        FzStream.mk [] [] (SourceEnd.err (FzError.mk .trylater "later")) 0 0,
        some (FzError.mk .trylater "later")) ∧
    (FzError.mk FzErrorCode.trylater "later").code = .trylater ∧
    fz_read_best (FzStream.mk [] [] (SourceEnd.err (FzError.mk .trylater "later")) 0 0)
        1024 true = .error (FzError.mk .trylater "later") :=
  ⟨rfl, rfl, fz_read_best_trylater_reraised _ 1024 true _ _ _ rfl rfl⟩

/-- **C3**: whenever the slurp loop of `fz_read_best` ends with an error
other than retry-later, tolerant mode returns the partial buffer
accumulated so far with the truncated flag set and swallows the error,
while non-tolerant mode propagates the error and exposes no buffer. -/
theorem fz_read_best_other_error_spec (s : FzStream) (hint : Nat) (buf : FzBuffer)
    (s' : FzStream) (e : FzError)
    (hrun : fz_read_best_run s hint = (buf, s', some e)) (hne : e.code ≠ .trylater) :
    fz_read_best s hint true = .ok (buf, true) ∧
      fz_read_best s hint false = .error e := by
  constructor
  · rw [fz_read_best, hrun]
    simp [hne]
  · rw [fz_read_best, hrun]
    simp [hne]

/-- **C3** witness: a source that raises a generic error immediately;
tolerant mode returns the (here empty) partial buffer truncated,
non-tolerant mode re-raises. -/
theorem fz_read_best_other_error_spec_witness :
    fz_read_best_run (FzStream.mk [] [] (SourceEnd.err (FzError.mk .generic "io")) 0 0)
        1024 =
      (fz_new_buffer 1025,
        FzStream.mk [] [] (SourceEnd.err (FzError.mk .generic "io")) 0 0,
        some (FzError.mk .generic "io")) ∧
    (FzError.mk FzErrorCode.generic "io").code ≠ .trylater ∧
    (fz_read_best (FzStream.mk [] [] (SourceEnd.err (FzError.mk .generic "io")) 0 0)
        1024 true = .ok (fz_new_buffer 1025, true) ∧
      fz_read_best (FzStream.mk [] [] (SourceEnd.err (FzError.mk .generic "io")) 0 0)
        1024 false = .error (FzError.mk .generic "io")) :=
  ⟨rfl, by decide, fz_read_best_other_error_spec _ 1024 _ _ _ rfl (by decide)⟩

/-- **C4**: on a well-formed stream that ends normally, `fz_read`
returns (without error) exactly the first `min n (remaining)` bytes —
in particular all `k` remaining bytes when `k < n` — and advances the
read cursor (`fz_tell`) by exactly the number of bytes copied, stopping
at the requested length or at the end of the source. -/
theorem fz_read_spec (s : FzStream) (n : Nat) (hwf : s.wf) (hfin : s.fin = .eof) :
    ∃ s', fz_read s n = .ok ((content s).take n, s') ∧
      ((content s).take n).length = min n (totalRemaining s) ∧
      content s' = (content s).drop n ∧
      fz_tell s' = fz_tell s + ((content s).take n).length := by
  obtain ⟨s', h1, h2, _, _, h5⟩ := fz_read_eof s n hwf hfin
  refine ⟨s', h1, ?_, h2, ?_⟩
  · rw [List.length_take]
    rfl
  · rw [h5, List.length_take]
    rfl

/-- **C4** witness: a stream holding 3 bytes, asked for 5, yields exactly
the 3 bytes. -/
theorem fz_read_spec_witness :
    (FzStream.mk [1, 2] [[3]] SourceEnd.eof 3 0).wf ∧
    (FzStream.mk [1, 2] [[3]] SourceEnd.eof 3 0).fin = .eof ∧
    (∃ s', fz_read (FzStream.mk [1, 2] [[3]] SourceEnd.eof 3 0) 5 =
        .ok ((content (FzStream.mk [1, 2] [[3]] SourceEnd.eof 3 0)).take 5, s') ∧
      ((content (FzStream.mk [1, 2] [[3]] SourceEnd.eof 3 0)).take 5).length =
        min 5 (totalRemaining (FzStream.mk [1, 2] [[3]] SourceEnd.eof 3 0)) ∧
      content s' = (content (FzStream.mk [1, 2] [[3]] SourceEnd.eof 3 0)).drop 5 ∧
      fz_tell s' = fz_tell (FzStream.mk [1, 2] [[3]] SourceEnd.eof 3 0) +
        ((content (FzStream.mk [1, 2] [[3]] SourceEnd.eof 3 0)).take 5).length) :=
  ⟨by decide, rfl, fz_read_spec _ 5 (by decide) rfl⟩

theorem natCast_ne_EOF (b : Nat) : ¬((b : Int) = EOF) := by
  simp only [EOF]
  omega

theorem line_loop_total : ∀ n (s : FzStream) (c : Int) (acc : List Nat),
    s.wf → s.fin = .eof →
    ∃ acc2 c2 s2, fz_read_line_loop n c s acc = .ok (acc ++ acc2, c2, s2) := by
  intro n
  induction n using Nat.strong_induction_on with
  | _ n ih =>
    intro s c acc hwf hfin
    match n with
    | 0 => exact ⟨[], c, s, by simp [fz_read_line_loop]⟩
    | 1 => exact ⟨[], c, s, by simp [fz_read_line_loop]⟩
    | m + 2 =>
      rcases hcon : content s with _ | ⟨b, t⟩
      · have hrb := rb_nil s hwf hcon hfin
        refine ⟨[], EOF, s, ?_⟩
        simp [fz_read_line_loop, hrb]
      · obtain ⟨s1, hrb, hc1, hwf1, hfin1, _⟩ := rb_cons s b t hwf hcon
        by_cases hb13 : b = 13
        · subst hb13
          rcases hct : t with _ | ⟨r, t1⟩
          · have hpk := peek_nil s1 hwf1 (by rw [hc1, hct]) (by rw [hfin1, hfin])
            refine ⟨[], EOF, s1, ?_⟩
            simp [fz_read_line_loop, hrb, hpk, EOF]
          · rw [hct] at hc1
            obtain ⟨s2, hpk, hc2, hwf2, hfin2, _⟩ := peek_cons s1 r t1 hwf1 hc1
            by_cases hr10 : r = 10
            · subst hr10
              obtain ⟨s3, hrb2, hc3, hwf3, hfin3, _⟩ := rb_cons s2 10 t1 hwf2 hc2
              refine ⟨[], 10, s3, ?_⟩
              simp [fz_read_line_loop, hrb, hpk, hrb2, EOF]
            · refine ⟨[], (r : Int), s2, ?_⟩
              have hrne : ¬((r : Int) = 10) := by
                intro h
                exact hr10 (by omega)
              simp [fz_read_line_loop, hrb, hpk, EOF, hrne]
        · by_cases hb10 : b = 10
          · subst hb10
            refine ⟨[], 10, s1, ?_⟩
            simp [fz_read_line_loop, hrb, EOF]
          · obtain ⟨acc2, c2, s2, hrec⟩ := ih (m + 1) (by omega) s1 (b : Int)
              (acc ++ [(b : Int).toNat]) hwf1 (by rw [hfin1, hfin])
            refine ⟨(b : Int).toNat :: acc2, c2, s2, ?_⟩
            have hbne13 : ¬((b : Int) = 13) := by
              intro h
              exact hb13 (by omega)
            have hbne10 : ¬((b : Int) = 10) := by
              intro h
              exact hb10 (by omega)
            simp only [fz_read_line_loop, hrb]
            rw [if_neg (natCast_ne_EOF b), if_neg hbne13, if_neg hbne10, hrec]
            simp

theorem line_loop_term : ∀ (pre : List Nat) (n : Nat) (s : FzStream) (acc : List Nat)
    (c0 : Int), s.wf → (∀ b ∈ pre, b ≠ 13 ∧ b ≠ 10) → pre.length + 1 < n →
    (∀ rest, content s = pre ++ 13 :: 10 :: rest →
      ∃ s', fz_read_line_loop n c0 s acc = .ok (acc ++ pre, 10, s') ∧
        content s' = rest ∧ s'.wf ∧ s'.fin = s.fin) ∧
    (∀ rest, content s = pre ++ 10 :: rest →
      ∃ s', fz_read_line_loop n c0 s acc = .ok (acc ++ pre, 10, s') ∧
        content s' = rest ∧ s'.wf ∧ s'.fin = s.fin) ∧
    (∀ (r : Nat) (t : List Nat), content s = pre ++ 13 :: r :: t → r ≠ 10 →
      ∃ s', fz_read_line_loop n c0 s acc = .ok (acc ++ pre, (r : Int), s') ∧
        content s' = r :: t ∧ s'.wf ∧ s'.fin = s.fin) := by
  intro pre
  induction pre with
  | nil =>
    intro n s acc c0 hwf _ hn
    match n with
    | m + 2 =>
      refine ⟨?_, ?_, ?_⟩
      · intro rest hcon
        simp only [List.nil_append] at hcon
        obtain ⟨s1, hrb, hc1, hwf1, hfin1, _⟩ := rb_cons s 13 (10 :: rest) hwf hcon
        obtain ⟨s2, hpk, hc2, hwf2, hfin2, _⟩ := peek_cons s1 10 rest hwf1 hc1
        obtain ⟨s3, hrb2, hc3, hwf3, hfin3, _⟩ := rb_cons s2 10 rest hwf2 hc2
        refine ⟨s3, ?_, hc3, hwf3, by rw [hfin3, hfin2, hfin1]⟩
        simp [fz_read_line_loop, hrb, hpk, hrb2, EOF]
      · intro rest hcon
        simp only [List.nil_append] at hcon
        obtain ⟨s1, hrb, hc1, hwf1, hfin1, _⟩ := rb_cons s 10 rest hwf hcon
        refine ⟨s1, ?_, hc1, hwf1, hfin1⟩
        simp [fz_read_line_loop, hrb, EOF]
      · intro r t hcon hr10
        simp only [List.nil_append] at hcon
        obtain ⟨s1, hrb, hc1, hwf1, hfin1, _⟩ := rb_cons s 13 (r :: t) hwf hcon
        obtain ⟨s2, hpk, hc2, hwf2, hfin2, _⟩ := peek_cons s1 r t hwf1 hc1
        refine ⟨s2, ?_, hc2, hwf2, by rw [hfin2, hfin1]⟩
        have hrne : ¬((r : Int) = 10) := by
          intro h
          exact hr10 (by omega)
        simp [fz_read_line_loop, hrb, hpk, EOF, hrne]
  | cons p ps ihp =>
    intro n s acc c0 hwf hpre hn
    have hp : p ≠ 13 ∧ p ≠ 10 := hpre p (by simp)
    match n with
    | m + 2 =>
      have hstep : ∀ X, content s = (p :: ps) ++ X →
          ∃ s1, fz_read_byte s = .ok ((p : Int), s1) ∧ content s1 = ps ++ X ∧
            s1.wf ∧ s1.fin = s.fin := by
        intro X hcon
        rw [List.cons_append] at hcon
        obtain ⟨s1, hrb, hc1, hwf1, hfin1, _⟩ := rb_cons s p (ps ++ X) hwf hcon
        exact ⟨s1, hrb, hc1, hwf1, hfin1⟩
      have hpne13 : ¬((p : Int) = 13) := by
        intro h
        exact hp.1 (by omega)
      have hpne10 : ¬((p : Int) = 10) := by
        intro h
        exact hp.2 (by omega)
      have hacc : acc ++ [(p : Int).toNat] ++ ps = acc ++ p :: ps := by
        simp
      refine ⟨?_, ?_, ?_⟩
      · intro rest hcon
        obtain ⟨s1, hrb, hc1, hwf1, hfin1⟩ := hstep (13 :: 10 :: rest) hcon
        obtain ⟨h1, _, _⟩ := ihp (m + 1) s1 (acc ++ [(p : Int).toNat]) (p : Int) hwf1
          (fun b hb => hpre b (by simp [hb])) (by simp at hn ⊢; omega)
        obtain ⟨s', hloop, hc', hwf', hfin'⟩ := h1 rest hc1
        refine ⟨s', ?_, hc', hwf', by rw [hfin', hfin1]⟩
        simp only [fz_read_line_loop, hrb]
        rw [if_neg (natCast_ne_EOF p), if_neg hpne13, if_neg hpne10, hloop, hacc]
      · intro rest hcon
        obtain ⟨s1, hrb, hc1, hwf1, hfin1⟩ := hstep (10 :: rest) hcon
        obtain ⟨_, h2, _⟩ := ihp (m + 1) s1 (acc ++ [(p : Int).toNat]) (p : Int) hwf1
          (fun b hb => hpre b (by simp [hb])) (by simp at hn ⊢; omega)
        obtain ⟨s', hloop, hc', hwf', hfin'⟩ := h2 rest hc1
        refine ⟨s', ?_, hc', hwf', by rw [hfin', hfin1]⟩
        simp only [fz_read_line_loop, hrb]
        rw [if_neg (natCast_ne_EOF p), if_neg hpne13, if_neg hpne10, hloop, hacc]
      · intro r t hcon hr10
        obtain ⟨s1, hrb, hc1, hwf1, hfin1⟩ := hstep (13 :: r :: t) hcon
        obtain ⟨_, _, h3⟩ := ihp (m + 1) s1 (acc ++ [(p : Int).toNat]) (p : Int) hwf1
          (fun b hb => hpre b (by simp [hb])) (by simp at hn ⊢; omega)
        obtain ⟨s', hloop, hc', hwf', hfin'⟩ := h3 r t hc1 hr10
        refine ⟨s', ?_, hc', hwf', by rw [hfin', hfin1]⟩
        simp only [fz_read_line_loop, hrb]
        rw [if_neg (natCast_ne_EOF p), if_neg hpne13, if_neg hpne10, hloop, hacc]

/-- **C6**: `fz_read_line` stops at the first line terminator with CR/LF
normalization and writes none of the terminator bytes to the output:
after a prefix of ordinary bytes, a `\r\n` pair is consumed entirely
(the byte after `\r` is only peeked and is consumed exactly because it
is `\n`), a bare `\r` (followed by a byte other than `\n`) is consumed
alone leaving the following byte unread, and a `\n` alone is consumed;
in each case the line returned is exactly the prefix and the stream is
left positioned on the byte after the terminator. -/
theorem fz_read_line_terminator_spec (s : FzStream) (n : Nat) (pre rest : List Nat)
    (r : Nat) (t : List Nat) (hwf : s.wf) (hpre : ∀ b ∈ pre, b ≠ 13 ∧ b ≠ 10)
    (hn : pre.length + 1 < n) :
    (content s = pre ++ 13 :: 10 :: rest →
      ∃ s', fz_read_line s n = .ok (some pre, s') ∧ content s' = rest) ∧
    (content s = pre ++ 10 :: rest →
      ∃ s', fz_read_line s n = .ok (some pre, s') ∧ content s' = rest) ∧
    (content s = pre ++ 13 :: r :: t → r ≠ 10 →
      ∃ s', fz_read_line s n = .ok (some pre, s') ∧ content s' = r :: t) := by
  obtain ⟨h1, h2, h3⟩ := line_loop_term pre n s [] EOF hwf hpre hn
  refine ⟨?_, ?_, ?_⟩
  · intro hcon
    obtain ⟨s', hl, hc, _, _⟩ := h1 rest hcon
    refine ⟨s', ?_, hc⟩
    rw [fz_read_line, hl]
    simp [EOF]
  · intro hcon
    obtain ⟨s', hl, hc, _, _⟩ := h2 rest hcon
    refine ⟨s', ?_, hc⟩
    rw [fz_read_line, hl]
    simp [EOF]
  · intro hcon hr10
    obtain ⟨s', hl, hc, _, _⟩ := h3 r t hcon hr10
    refine ⟨s', ?_, hc⟩
    rw [fz_read_line, hl]
    simp [natCast_ne_EOF r]

/-- **C6** witness: reading a line from `"abc\r\ndef"` yields `"abc"` and
leaves the stream positioned at `'d'`. -/
theorem fz_read_line_terminator_spec_witness :
    (FzStream.mk [97, 98, 99, 13, 10, 100, 101, 102] [] SourceEnd.eof 8 0).wf ∧
    (∀ b ∈ [97, 98, 99], b ≠ 13 ∧ b ≠ 10) ∧ [97, 98, 99].length + 1 < 100 ∧
    (content (FzStream.mk [97, 98, 99, 13, 10, 100, 101, 102] [] SourceEnd.eof 8 0) =
        [97, 98, 99] ++ 13 :: 10 :: [100, 101, 102] →
      ∃ s', fz_read_line (FzStream.mk [97, 98, 99, 13, 10, 100, 101, 102] []
          SourceEnd.eof 8 0) 100 = .ok (some [97, 98, 99], s') ∧
        content s' = [100, 101, 102]) :=
  ⟨by decide, by decide, by decide,
    (fz_read_line_terminator_spec _ 100 [97, 98, 99] [100, 101, 102] 0 []
      (by decide) (by decide) (by decide)).1⟩

/-- **C5** (amended): on a well-formed stream that ends normally,
`fz_read_line` returns the distinguished "no line" result exactly when
the capacity is at most 1, or the stream is already exhausted, or the
remaining content is a single bare `\r` immediately followed by end of
stream (in the last case the CR is consumed, the lookahead peek hits end
of stream and overwrites the loop's byte variable with the sentinel, so
the code reports "no line" even though a terminator byte was read —
contrary to the claim as stated, see the counterexample).  Empty lines
terminated by `\n`, by `\r\n`, or by `\r` followed by more data still
return an empty (non-"no line") result. -/
theorem fz_read_line_none_iff (s : FzStream) (n : Nat) (hwf : s.wf)
    (hfin : s.fin = .eof) :
    (∃ s', fz_read_line s n = .ok (none, s')) ↔
      (n ≤ 1 ∨ content s = [] ∨ content s = [13]) := by
  constructor
  · intro ⟨s', hres⟩
    by_contra hr
    push_neg at hr
    obtain ⟨hn2, hcne, hcne13⟩ := hr
    have hn2' : 1 < n := by omega
    rcases hcon : content s with _ | ⟨b, t⟩
    · exact hcne hcon
    by_cases hb13 : b = 13
    · subst hb13
      rcases hct : t with _ | ⟨r, t1⟩
      · rw [hct] at hcon
        exact hcne13 hcon
      · rw [hct] at hcon
        by_cases hr10 : r = 10
        · subst hr10
          obtain ⟨h1, _, _⟩ := line_loop_term [] n s [] EOF hwf (by simp) (by simpa)
          obtain ⟨s'', hl, _, _, _⟩ := h1 t1 (by simpa using hcon)
          rw [fz_read_line, hl] at hres
          simp [EOF] at hres
        · obtain ⟨_, _, h3⟩ := line_loop_term [] n s [] EOF hwf (by simp) (by simpa)
          obtain ⟨s'', hl, _, _, _⟩ := h3 r t1 (by simpa using hcon) hr10
          rw [fz_read_line, hl] at hres
          simp [natCast_ne_EOF r] at hres
    · by_cases hb10 : b = 10
      · subst hb10
        obtain ⟨_, h2, _⟩ := line_loop_term [] n s [] EOF hwf (by simp) (by simpa)
        obtain ⟨s'', hl, _, _, _⟩ := h2 t (by simpa using hcon)
        rw [fz_read_line, hl] at hres
        simp [EOF] at hres
      · match n, hn2' with
        | m + 2, _ =>
          obtain ⟨s1, hrb, hc1, hwf1, hfin1, _⟩ := rb_cons s b t hwf hcon
          obtain ⟨acc2, c2, s2, hrec⟩ := line_loop_total (m + 1) s1 (b : Int)
            ([] ++ [(b : Int).toNat]) hwf1 (by rw [hfin1, hfin])
          have hbne13 : ¬((b : Int) = 13) := by
            intro h
            exact hb13 (by omega)
          have hbne10 : ¬((b : Int) = 10) := by
            intro h
            exact hb10 (by omega)
          rw [fz_read_line] at hres
          simp only [fz_read_line_loop, hrb] at hres
          rw [if_neg (natCast_ne_EOF b), if_neg hbne13, if_neg hbne10, hrec] at hres
          simp at hres
  · intro h
    rcases h with hn1 | hnil | h13
    · match n, hn1 with
      | 0, _ => exact ⟨s, rfl⟩
      | 1, _ => exact ⟨s, rfl⟩
    · rcases n with _ | _ | m
      · exact ⟨s, rfl⟩
      · exact ⟨s, rfl⟩
      · have hrb := rb_nil s hwf hnil hfin
        refine ⟨s, ?_⟩
        rw [fz_read_line]
        simp [fz_read_line_loop, hrb]
    · rcases n with _ | _ | m
      · exact ⟨s, rfl⟩
      · exact ⟨s, rfl⟩
      · obtain ⟨s1, hrb, hc1, hwf1, hfin1, _⟩ := rb_cons s 13 [] hwf h13
        have hpk := peek_nil s1 hwf1 hc1 (by rw [hfin1, hfin])
        refine ⟨s1, ?_⟩
        rw [fz_read_line]
        simp [fz_read_line_loop, hrb, hpk, EOF]

/-- **C5** witness: a stream holding `"a\n"` instantiates the amended
"no line" characterization (and, the right side being false, the read
does not report "no line"). -/
theorem fz_read_line_none_iff_witness :
    (FzStream.mk [97, 10] [] SourceEnd.eof 2 0).wf ∧
    (FzStream.mk [97, 10] [] SourceEnd.eof 2 0).fin = .eof ∧
    ((∃ s', fz_read_line (FzStream.mk [97, 10] [] SourceEnd.eof 2 0) 8 =
        .ok (none, s')) ↔
      (8 ≤ 1 ∨ content (FzStream.mk [97, 10] [] SourceEnd.eof 2 0) = [] ∨
        content (FzStream.mk [97, 10] [] SourceEnd.eof 2 0) = [13])) :=
  ⟨by decide, rfl, fz_read_line_none_iff _ 8 (by decide) rfl⟩

/-- **C5** counterexample to the claim as stated: a stream whose content is
a single `\r` — a genuine line terminator as the first byte, which the
claim says must produce an empty non-"no line" result — nevertheless
yields the "no line" result, because the CR lookahead peek hits end of
stream and overwrites the loop's byte variable with the sentinel. -/
theorem fz_read_line_bare_cr_no_line :
    content (FzStream.mk [13] [] SourceEnd.eof 1 0) = [13] ∧
    fz_read_line (FzStream.mk [13] [] SourceEnd.eof 1 0) 16 =
      .ok (none, FzStream.mk [] [] SourceEnd.eof 1 0) :=
  ⟨rfl, rfl⟩

theorem u32_natCast (a : Nat) (ha : a < 4294967296) : u32 (a : Int) = a := by
  unfold u32
  have h32 : (2 : Int) ^ 32 = 4294967296 := by norm_num
  rw [h32]
  omega

theorem u64_natCast (a : Nat) (ha : a < 18446744073709551616) : u64 (a : Int) = a := by
  unfold u64
  have h64 : (2 : Int) ^ 64 = 18446744073709551616 := by norm_num
  rw [h64]
  omega

theorem u32_EOF_eq : u32 EOF = 4294967295 := by decide

theorem u64_EOF_eq : u64 EOF = 18446744073709551615 := by decide

theorem byteu32_ne_EOF (a : Nat) (ha : a < 256) : ¬(u32 (a : Int) = u32 EOF) := by
  rw [u32_natCast a (by omega), u32_EOF_eq]
  omega

theorem byteu64_ne_EOF (a : Nat) (ha : a < 256) : ¬(u64 (a : Int) = u64 EOF) := by
  rw [u64_natCast a (by omega), u64_EOF_eq]
  omega

theorem byte_shift_lt (a k : Nat) (ha : a < 256) : a <<< k < 2 ^ (8 + k) := by
  rw [Nat.shiftLeft_eq, pow_add]
  exact (mul_lt_mul_right (pow_pos (by norm_num) k)).mpr ha

theorem byte_shift_mod32 (a k : Nat) (ha : a < 256) (hk : 8 + k ≤ 32) :
    (a <<< k) % 2 ^ 32 = a <<< k := by
  apply Nat.mod_eq_of_lt
  calc a <<< k < 2 ^ (8 + k) := byte_shift_lt a k ha
    _ ≤ 2 ^ 32 := Nat.pow_le_pow_right (by norm_num) hk

theorem byte_shift_mod64 (a k : Nat) (ha : a < 256) (hk : 8 + k ≤ 64) :
    (a <<< k) % 2 ^ 64 = a <<< k := by
  apply Nat.mod_eq_of_lt
  calc a <<< k < 2 ^ (8 + k) := byte_shift_lt a k ha
    _ ≤ 2 ^ 64 := Nat.pow_le_pow_right (by norm_num) hk

theorem byte_shift_lt_pow (a k m : Nat) (ha : a < 256) (hk : 8 + k ≤ m) :
    a <<< k < 2 ^ m :=
  lt_of_lt_of_le (byte_shift_lt a k ha) (Nat.pow_le_pow_right (by norm_num) hk)

theorem lor_lt_pow (x y m : Nat) (hx : x < 2 ^ m) (hy : y < 2 ^ m) : x ||| y < 2 ^ m :=
  Nat.bitwise_lt_two_pow hx hy

theorem byte_lt_pow (b m : Nat) (hb : b < 256) (hm : 8 ≤ m) : b < 2 ^ m :=
  lt_of_lt_of_le hb (le_trans (by norm_num) (Nat.pow_le_pow_right (by norm_num) hm))

/-- **C7**: with enough bytes remaining, every fixed-width integer decoder
(16/24/32/64 bits, big- and little-endian) consumes exactly width/8
bytes, one at a time, and returns their pure bit-shift concatenation in
the corresponding byte order. -/
theorem fz_read_uint_spec (s : FzStream) (a b c d e f g h : Nat) (rest : List Nat)
    (hwf : s.wf) (hcon : content s = [a, b, c, d, e, f, g, h] ++ rest)
    (hbnd : ∀ x ∈ [a, b, c, d, e, f, g, h], x < 256) :
    (∃ s', fz_read_uint16 s = .ok ((a <<< 8) ||| b, s') ∧
      content s' = [c, d, e, f, g, h] ++ rest) ∧
    (∃ s', fz_read_uint24 s = .ok (((a <<< 16) ||| (b <<< 8)) ||| c, s') ∧
      content s' = [d, e, f, g, h] ++ rest) ∧
    (∃ s', fz_read_uint32 s =
        .ok ((((a <<< 24) ||| (b <<< 16)) ||| (c <<< 8)) ||| d, s') ∧
      content s' = [e, f, g, h] ++ rest) ∧
    (∃ s', fz_read_uint64 s = .ok ((((((((a <<< 56) ||| (b <<< 48)) ||| (c <<< 40)) |||
        (d <<< 32)) ||| (e <<< 24)) ||| (f <<< 16)) ||| (g <<< 8)) ||| h, s') ∧
      content s' = rest) ∧
    (∃ s', fz_read_uint16_le s = .ok (a ||| (b <<< 8), s') ∧
      content s' = [c, d, e, f, g, h] ++ rest) ∧
    (∃ s', fz_read_uint24_le s = .ok ((a ||| (b <<< 8)) ||| (c <<< 16), s') ∧
      content s' = [d, e, f, g, h] ++ rest) ∧
    (∃ s', fz_read_uint32_le s =
        .ok (((a ||| (b <<< 8)) ||| (c <<< 16)) ||| (d <<< 24), s') ∧
      content s' = [e, f, g, h] ++ rest) ∧
    (∃ s', fz_read_uint64_le s = .ok ((((((((a ||| (b <<< 8)) ||| (c <<< 16)) |||
        (d <<< 24)) ||| (e <<< 32)) ||| (f <<< 40)) ||| (g <<< 48)) ||| (h <<< 56)), s') ∧
      content s' = rest) := by
  have ha : a < 256 := hbnd a (by simp)
  have hb : b < 256 := hbnd b (by simp)
  have hc : c < 256 := hbnd c (by simp)
  have hd : d < 256 := hbnd d (by simp)
  have he : e < 256 := hbnd e (by simp)
  have hf : f < 256 := hbnd f (by simp)
  have hg : g < 256 := hbnd g (by simp)
  have hh : h < 256 := hbnd h (by simp)
  obtain ⟨s1, hrb1, hc1, hwf1, _, _⟩ :=
    rb_cons s a ([b, c, d, e, f, g, h] ++ rest) hwf (by simpa using hcon)
  obtain ⟨s2, hrb2, hc2, hwf2, _, _⟩ :=
    rb_cons s1 b ([c, d, e, f, g, h] ++ rest) hwf1 (by simpa using hc1)
  obtain ⟨s3, hrb3, hc3, hwf3, _, _⟩ :=
    rb_cons s2 c ([d, e, f, g, h] ++ rest) hwf2 (by simpa using hc2)
  obtain ⟨s4, hrb4, hc4, hwf4, _, _⟩ :=
    rb_cons s3 d ([e, f, g, h] ++ rest) hwf3 (by simpa using hc3)
  obtain ⟨s5, hrb5, hc5, hwf5, _, _⟩ :=
    rb_cons s4 e ([f, g, h] ++ rest) hwf4 (by simpa using hc4)
  obtain ⟨s6, hrb6, hc6, hwf6, _, _⟩ :=
    rb_cons s5 f ([g, h] ++ rest) hwf5 (by simpa using hc5)
  obtain ⟨s7, hrb7, hc7, hwf7, _, _⟩ :=
    rb_cons s6 g ([h] ++ rest) hwf6 (by simpa using hc6)
  obtain ⟨s8, hrb8, hc8, hwf8, _, _⟩ :=
    rb_cons s7 h rest hwf7 (by simpa using hc7)
  refine ⟨⟨s2, ?_, hc2⟩, ⟨s3, ?_, hc3⟩, ⟨s4, ?_, hc4⟩, ⟨s8, ?_, hc8⟩,
    ⟨s2, ?_, hc2⟩, ⟨s3, ?_, hc3⟩, ⟨s4, ?_, hc4⟩, ⟨s8, ?_, hc8⟩⟩
  · simp only [fz_read_uint16, hrb1, hrb2]
    rw [if_neg (by
      rintro (hx | hx)
      · exact byteu32_ne_EOF a ha hx
      · exact byteu32_ne_EOF b hb hx)]
    rw [u32_natCast a (by omega), u32_natCast b (by omega),
      byte_shift_mod32 a 8 ha (by norm_num),
      Nat.mod_eq_of_lt (lor_lt_pow _ _ 16 (byte_shift_lt_pow a 8 16 ha (by norm_num))
        (byte_lt_pow b 16 hb (by norm_num)))]
  · simp only [fz_read_uint24, hrb1, hrb2, hrb3]
    rw [if_neg (by
      rintro (hx | hx | hx)
      · exact byteu32_ne_EOF a ha hx
      · exact byteu32_ne_EOF b hb hx
      · exact byteu32_ne_EOF c hc hx)]
    rw [u32_natCast a (by omega), u32_natCast b (by omega), u32_natCast c (by omega),
      byte_shift_mod32 a 16 ha (by norm_num), byte_shift_mod32 b 8 hb (by norm_num)]
  · simp only [fz_read_uint32, hrb1, hrb2, hrb3, hrb4]
    rw [if_neg (by
      rintro (hx | hx | hx | hx)
      · exact byteu32_ne_EOF a ha hx
      · exact byteu32_ne_EOF b hb hx
      · exact byteu32_ne_EOF c hc hx
      · exact byteu32_ne_EOF d hd hx)]
    rw [u32_natCast a (by omega), u32_natCast b (by omega), u32_natCast c (by omega),
      u32_natCast d (by omega), byte_shift_mod32 a 24 ha (by norm_num),
      byte_shift_mod32 b 16 hb (by norm_num), byte_shift_mod32 c 8 hc (by norm_num)]
  · simp only [fz_read_uint64, hrb1, hrb2, hrb3, hrb4, hrb5, hrb6, hrb7, hrb8]
    rw [if_neg (by
      rintro (hx | hx | hx | hx | hx | hx | hx | hx)
      · exact byteu64_ne_EOF a ha hx
      · exact byteu64_ne_EOF b hb hx
      · exact byteu64_ne_EOF c hc hx
      · exact byteu64_ne_EOF d hd hx
      · exact byteu64_ne_EOF e he hx
      · exact byteu64_ne_EOF f hf hx
      · exact byteu64_ne_EOF g hg hx
      · exact byteu64_ne_EOF h hh hx)]
    rw [u64_natCast a (by omega), u64_natCast b (by omega), u64_natCast c (by omega),
      u64_natCast d (by omega), u64_natCast e (by omega), u64_natCast f (by omega),
      u64_natCast g (by omega), u64_natCast h (by omega),
      byte_shift_mod64 a 56 ha (by norm_num), byte_shift_mod64 b 48 hb (by norm_num),
      byte_shift_mod64 c 40 hc (by norm_num), byte_shift_mod64 d 32 hd (by norm_num),
      byte_shift_mod64 e 24 he (by norm_num), byte_shift_mod64 f 16 hf (by norm_num),
      byte_shift_mod64 g 8 hg (by norm_num)]
  · simp only [fz_read_uint16_le, hrb1, hrb2]
    rw [if_neg (by
      rintro (hx | hx)
      · exact byteu32_ne_EOF a ha hx
      · exact byteu32_ne_EOF b hb hx)]
    rw [u32_natCast a (by omega), u32_natCast b (by omega),
      byte_shift_mod32 b 8 hb (by norm_num),
      Nat.mod_eq_of_lt (lor_lt_pow _ _ 16 (byte_lt_pow a 16 ha (by norm_num))
        (byte_shift_lt_pow b 8 16 hb (by norm_num)))]
  · simp only [fz_read_uint24_le, hrb1, hrb2, hrb3]
    rw [if_neg (by
      rintro (hx | hx | hx)
      · exact byteu32_ne_EOF a ha hx
      · exact byteu32_ne_EOF b hb hx
      · exact byteu32_ne_EOF c hc hx)]
    rw [u32_natCast a (by omega), u32_natCast b (by omega), u32_natCast c (by omega),
      byte_shift_mod32 b 8 hb (by norm_num), byte_shift_mod32 c 16 hc (by norm_num)]
  · simp only [fz_read_uint32_le, hrb1, hrb2, hrb3, hrb4]
    rw [if_neg (by
      rintro (hx | hx | hx | hx)
      · exact byteu32_ne_EOF a ha hx
      · exact byteu32_ne_EOF b hb hx
      · exact byteu32_ne_EOF c hc hx
      · exact byteu32_ne_EOF d hd hx)]
    rw [u32_natCast a (by omega), u32_natCast b (by omega), u32_natCast c (by omega),
      u32_natCast d (by omega), byte_shift_mod32 b 8 hb (by norm_num),
      byte_shift_mod32 c 16 hc (by norm_num), byte_shift_mod32 d 24 hd (by norm_num)]
  · simp only [fz_read_uint64_le, hrb1, hrb2, hrb3, hrb4, hrb5, hrb6, hrb7, hrb8]
    rw [if_neg (by
      rintro (hx | hx | hx | hx | hx | hx | hx | hx)
      · exact byteu64_ne_EOF a ha hx
      · exact byteu64_ne_EOF b hb hx
      · exact byteu64_ne_EOF c hc hx
      · exact byteu64_ne_EOF d hd hx
      · exact byteu64_ne_EOF e he hx
      · exact byteu64_ne_EOF f hf hx
      · exact byteu64_ne_EOF g hg hx
      · exact byteu64_ne_EOF h hh hx)]
    rw [u64_natCast a (by omega), u64_natCast b (by omega), u64_natCast c (by omega),
      u64_natCast d (by omega), u64_natCast e (by omega), u64_natCast f (by omega),
      u64_natCast g (by omega), u64_natCast h (by omega),
      byte_shift_mod64 b 8 hb (by norm_num), byte_shift_mod64 c 16 hc (by norm_num),
      byte_shift_mod64 d 24 hd (by norm_num), byte_shift_mod64 e 32 he (by norm_num),
      byte_shift_mod64 f 40 hf (by norm_num), byte_shift_mod64 g 48 hg (by norm_num),
      byte_shift_mod64 h 56 hh (by norm_num)]

/-- **C7** witness: decoding bytes `[0x12, 0x34]` as a big-endian 16-bit
integer yields `0x1234`, and as little-endian `0x3412`. -/
theorem fz_read_uint_spec_witness :
    (FzStream.mk [18, 52, 0, 0, 0, 0, 0, 0] [] SourceEnd.eof 8 0).wf ∧
    content (FzStream.mk [18, 52, 0, 0, 0, 0, 0, 0] [] SourceEnd.eof 8 0) =
      [18, 52, 0, 0, 0, 0, 0, 0] ++ [] ∧
    (∀ x ∈ [18, 52, 0, 0, 0, 0, 0, 0], x < 256) ∧
    ((18 : Nat) <<< 8 ||| 52 = 4660 ∧ (18 : Nat) ||| (52 <<< 8) = 13330) ∧
    (∃ s', fz_read_uint16 (FzStream.mk [18, 52, 0, 0, 0, 0, 0, 0] [] SourceEnd.eof 8 0) =
        .ok ((18 <<< 8) ||| 52, s') ∧
      content s' = [0, 0, 0, 0, 0, 0] ++ []) ∧
    (∃ s', fz_read_uint16_le (FzStream.mk [18, 52, 0, 0, 0, 0, 0, 0] [] SourceEnd.eof 8 0) =
        .ok (18 ||| (52 <<< 8), s') ∧
      content s' = [0, 0, 0, 0, 0, 0] ++ []) :=
  ⟨by decide, rfl, by decide, by decide,
    (fz_read_uint_spec (FzStream.mk [18, 52, 0, 0, 0, 0, 0, 0] [] SourceEnd.eof 8 0)
      18 52 0 0 0 0 0 0 [] (by decide) rfl (by decide)).1,
    (fz_read_uint_spec (FzStream.mk [18, 52, 0, 0, 0, 0, 0, 0] [] SourceEnd.eof 8 0)
      18 52 0 0 0 0 0 0 [] (by decide) rfl (by decide)).2.2.2.2.1⟩

/-- **C8**: on a well-formed stream that ends normally with fewer bytes
remaining than a fixed-width integer decoder needs, the decode fails
with the width-specific premature-end-of-file error and yields no value:
at least one of the individually fetched bytes is the end-of-stream
sentinel, which makes the whole decode throw — with no rollback of the
bytes consumed before the sentinel and no partial value returned. -/
theorem fz_read_uint_eof_error (s : FzStream) (hwf : s.wf) (hfin : s.fin = .eof) :
    (totalRemaining s < 2 →
      fz_read_uint16 s = .error (FzError.mk .generic "premature end of file in int16") ∧
      fz_read_uint16_le s =
        .error (FzError.mk .generic "premature end of file in int16")) ∧
    (totalRemaining s < 3 →
      fz_read_uint24 s = .error (FzError.mk .generic "premature end of file in int24") ∧
      fz_read_uint24_le s =
        .error (FzError.mk .generic "premature end of file in int24")) ∧
    (totalRemaining s < 4 →
      fz_read_uint32 s = .error (FzError.mk .generic "premature end of file in int32") ∧
      fz_read_uint32_le s =
        .error (FzError.mk .generic "premature end of file in int32")) ∧
    (totalRemaining s < 8 →
      fz_read_uint64 s = .error (FzError.mk .generic "premature end of file in int64") ∧
      fz_read_uint64_le s =
        .error (FzError.mk .generic "premature end of file in int64")) := by
  have hTlen : (content s).length = totalRemaining s := rfl
  obtain ⟨s1, hrb1, hc1, hwf1, hfin1⟩ := rb_eof_spec s hwf hfin
  obtain ⟨s2, hrb2, hc2, hwf2, hfin2⟩ := rb_eof_spec s1 hwf1 hfin1
  obtain ⟨s3, hrb3, hc3, hwf3, hfin3⟩ := rb_eof_spec s2 hwf2 hfin2
  obtain ⟨s4, hrb4, hc4, hwf4, hfin4⟩ := rb_eof_spec s3 hwf3 hfin3
  obtain ⟨s5, hrb5, hc5, hwf5, hfin5⟩ := rb_eof_spec s4 hwf4 hfin4
  obtain ⟨s6, hrb6, hc6, hwf6, hfin6⟩ := rb_eof_spec s5 hwf5 hfin5
  obtain ⟨s7, hrb7, hc7, hwf7, hfin7⟩ := rb_eof_spec s6 hwf6 hfin6
  obtain ⟨s8, hrb8, hc8, hwf8, hfin8⟩ := rb_eof_spec s7 hwf7 hfin7
  have hd1 : content s1 = (content s).drop 1 := hc1
  have hd2 : content s2 = (content s).drop 2 := by rw [hc2, hd1, List.drop_drop]
  have hd3 : content s3 = (content s).drop 3 := by rw [hc3, hd2, List.drop_drop]
  have hd4 : content s4 = (content s).drop 4 := by rw [hc4, hd3, List.drop_drop]
  have hd5 : content s5 = (content s).drop 5 := by rw [hc5, hd4, List.drop_drop]
  have hd6 : content s6 = (content s).drop 6 := by rw [hc6, hd5, List.drop_drop]
  rw [hd1] at hrb2
  rw [hd2] at hrb3
  rw [hd3] at hrb4
  rw [hd4] at hrb5
  rw [hd5] at hrb6
  have hd7 : content s7 = (content s).drop 7 := by rw [hc7, hd6, List.drop_drop]
  rw [hd6] at hrb7
  rw [hd7] at hrb8
  refine ⟨?_, ?_, ?_, ?_⟩
  · intro hlt
    have hE : u32 (headByte ((content s).drop 1)) = u32 EOF := by
      rw [List.drop_eq_nil_of_le (by omega)]
      rfl
    constructor
    · simp only [fz_read_uint16, hrb1, hrb2]
      rw [if_pos (Or.inr hE)]
    · simp only [fz_read_uint16_le, hrb1, hrb2]
      rw [if_pos (Or.inr hE)]
  · intro hlt
    have hE : u32 (headByte ((content s).drop 2)) = u32 EOF := by
      rw [List.drop_eq_nil_of_le (by omega)]
      rfl
    constructor
    · simp only [fz_read_uint24, hrb1, hrb2, hrb3]
      rw [if_pos (Or.inr (Or.inr hE))]
    · simp only [fz_read_uint24_le, hrb1, hrb2, hrb3]
      rw [if_pos (Or.inr (Or.inr hE))]
  · intro hlt
    have hE : u32 (headByte ((content s).drop 3)) = u32 EOF := by
      rw [List.drop_eq_nil_of_le (by omega)]
      rfl
    constructor
    · simp only [fz_read_uint32, hrb1, hrb2, hrb3, hrb4]
      rw [if_pos (Or.inr (Or.inr (Or.inr hE)))]
    · simp only [fz_read_uint32_le, hrb1, hrb2, hrb3, hrb4]
      rw [if_pos (Or.inr (Or.inr (Or.inr hE)))]
  · intro hlt
    have hE : u64 (headByte ((content s).drop 7)) = u64 EOF := by
      rw [List.drop_eq_nil_of_le (by omega)]
      rfl
    constructor
    · simp only [fz_read_uint64, hrb1, hrb2, hrb3, hrb4, hrb5, hrb6, hrb7, hrb8]
      rw [if_pos (Or.inr (Or.inr (Or.inr (Or.inr (Or.inr (Or.inr (Or.inr hE)))))))]
    · simp only [fz_read_uint64_le, hrb1, hrb2, hrb3, hrb4, hrb5, hrb6, hrb7, hrb8]
      rw [if_pos (Or.inr (Or.inr (Or.inr (Or.inr (Or.inr (Or.inr (Or.inr hE)))))))]

/-- **C8** witness: decoding a 32-bit integer from a stream with only two
bytes remaining fails with the premature-end-of-file error. -/
theorem fz_read_uint_eof_error_witness :
    (FzStream.mk [0, 1] [] SourceEnd.eof 2 0).wf ∧
    (FzStream.mk [0, 1] [] SourceEnd.eof 2 0).fin = .eof ∧
    totalRemaining (FzStream.mk [0, 1] [] SourceEnd.eof 2 0) < 4 ∧
    fz_read_uint32 (FzStream.mk [0, 1] [] SourceEnd.eof 2 0) =
      .error (FzError.mk .generic "premature end of file in int32") :=
  ⟨by decide, rfl, by decide,
    ((fz_read_uint_eof_error (FzStream.mk [0, 1] [] SourceEnd.eof 2 0)
      (by decide) rfl).2.2.1 (by decide)).1⟩

/-- **C9**: on a stream lacking the native seek capability, a seek whose
target implies moving backward — an absolute target (`whence = 0`)
before the current position, or a negative relative offset
(`whence = 1`) — is a no-op apart from the non-fatal "cannot seek
backwards" warning and the reset of the bit accumulator: the logical
reading position reported by `fz_tell` is unchanged and no bytes are
consumed from the source. -/
theorem fz_seek_backward_noop (s : FzStream) (offset : Int) (whence : Nat)
    (hback : (whence = 0 ∧ offset < fz_tell s) ∨ (whence = 1 ∧ offset < 0)) :
    fz_seek s offset whence =
      .ok (FzStream.mk s.window s.chunks s.fin s.pos 0, ["cannot seek backwards"]) ∧
    fz_tell (FzStream.mk s.window s.chunks s.fin s.pos 0) = fz_tell s ∧
    content (FzStream.mk s.window s.chunks s.fin s.pos 0) = content s := by
  refine ⟨?_, rfl, rfl⟩
  rcases hback with ⟨hw, hoff⟩ | ⟨hw, hoff⟩
  · subst hw
    have htell0 : fz_tell (FzStream.mk s.window s.chunks s.fin s.pos 0) = fz_tell s := rfl
    have hofflt : offset - fz_tell (FzStream.mk s.window s.chunks s.fin s.pos 0) < 0 := by
      rw [htell0]
      omega
    have htn : (offset - fz_tell (FzStream.mk s.window s.chunks s.fin s.pos 0)).toNat = 0 :=
      Int.toNat_of_nonpos (le_of_lt hofflt)
    simp only [fz_seek]
    rw [if_pos (by norm_num : (0 : Nat) ≠ 2)]
    simp only [if_true]
    rw [if_pos hofflt, htn]
    simp [fz_seek_loop]
  · subst hw
    have htn : offset.toNat = 0 := Int.toNat_of_nonpos (le_of_lt hoff)
    simp only [fz_seek]
    rw [if_pos (by norm_num : (1 : Nat) ≠ 2)]
    simp only [show ((1 : Nat) = 0) = False by simp, if_false]
    rw [if_pos hoff, htn]
    simp [fz_seek_loop]

/-- **C9** witness: an absolute seek to offset 1 on a seekless stream whose
current position is 2 warns and changes nothing but the bit
accumulator. -/
theorem fz_seek_backward_noop_witness :
    ((0 = 0 ∧ (1 : Int) < fz_tell (FzStream.mk [5] [] SourceEnd.eof 3 7)) ∨
      (0 = 1 ∧ (1 : Int) < 0)) ∧
    (fz_seek (FzStream.mk [5] [] SourceEnd.eof 3 7) 1 0 =
      .ok (FzStream.mk [5] [] SourceEnd.eof 3 0, ["cannot seek backwards"]) ∧
    fz_tell (FzStream.mk [5] [] SourceEnd.eof 3 0) =
      fz_tell (FzStream.mk [5] [] SourceEnd.eof 3 7) ∧
    content (FzStream.mk [5] [] SourceEnd.eof 3 0) =
      content (FzStream.mk [5] [] SourceEnd.eof 3 7)) :=
  ⟨Or.inl ⟨rfl, by decide⟩,
    fz_seek_backward_noop (FzStream.mk [5] [] SourceEnd.eof 3 7) 1 0
      (Or.inl ⟨rfl, by decide⟩)⟩
